import Mathlib

/-!
Verification of the scalable bundle engine (src/programs/scalable_bundle_engine.js)
and the reentrancy guard (src/programs/reentrancy_guard.js).

Shallow embedding conventions:
* JavaScript numbers are modelled as `Rat` where only exact arithmetic is
  exercised (all values touched by the statements below are integers far
  below 2^53, or 2^53 itself, where IEEE-754 double arithmetic is exact),
  and as `Nat`/`Int` for counters and timestamps.
* A JavaScript `Map` is modelled as an insertion-ordered association list
  `List (Nat × beta)`; `Map.get/set/delete/has` become `mapFind?`,
  `mapSet`, `mapErase`, `mapHas` below.  `Map.set` on an existing key
  replaces the value in place (keeping the insertion position), otherwise
  it appends, exactly as in JavaScript.
* Methods that read `Date.now()` take the current time `now : Nat` as an
  explicit argument.
* Stateful methods become functions `State -> args -> result × State`.
-/

/-! ### SafeMath (scalable_bundle_engine.js lines 73-117)

`add` computes `result = a + b` and returns `Number.MAX_SAFE_INTEGER`
when `result < a || result < b`, otherwise `result`.  `subtract` returns
`0` when `b > a`, otherwise `a - b`.  `divide` returns `0` when `b === 0`,
otherwise `a / b`.  All values appearing in the claims stay in the range
where double arithmetic is exact, so `Rat` is a faithful carrier. -/

namespace SafeMath

/-- `Number.MAX_SAFE_INTEGER` = 2^53 - 1. -/
def maxSafeInteger : Rat := 9007199254740991

/-- `SafeMath.add` (lines 74-81). -/
def add (a b : Rat) : Rat :=
  let result := a + b
  if result < a ∨ result < b then maxSafeInteger else result

/-- `SafeMath.subtract` (lines 83-89). -/
def subtract (a b : Rat) : Rat :=
  if b > a then 0 else a - b

/-- `SafeMath.divide` (lines 102-108). -/
def divide (a b : Rat) : Rat :=
  if b = 0 then 0 else a / b

end SafeMath

/-! ### JavaScript `Map` as an insertion-ordered association list -/

/-- `Map.get` (returning `none` for a missing key). -/
def mapFind? {β : Type} (m : List (Nat × β)) (k : Nat) : Option β :=
  (m.find? (fun p => decide (p.1 = k))).map Prod.snd

/-- `Map.has`. -/
def mapHas {β : Type} (m : List (Nat × β)) (k : Nat) : Bool :=
  (m.find? (fun p => decide (p.1 = k))).isSome

/-- `Map.set`: replaces in place when the key is present (keeping its
insertion position), otherwise appends. -/
def mapSet {β : Type} (m : List (Nat × β)) (k : Nat) (v : β) : List (Nat × β) :=
  if mapHas m k then m.map (fun p => if p.1 = k then (k, v) else p)
  else m ++ [(k, v)]

/-- `Map.delete`. -/
def mapErase {β : Type} (m : List (Nat × β)) (k : Nat) : List (Nat × β) :=
  m.eraseP (fun p => decide (p.1 = k))

/-- `Map.get` with a default value. -/
def mapGetD {β : Type} (m : List (Nat × β)) (k : Nat) (d : β) : β :=
  (mapFind? m k).getD d

/-- The keys of a JavaScript `Map` are pairwise distinct; association
lists representing a `Map` satisfy this invariant. -/
def keysNodup {β : Type} (m : List (Nat × β)) : Prop :=
  (m.map Prod.fst).Nodup

/-! ### CacheManager (scalable_bundle_engine.js lines 119-228)

Keys and values are modelled as `Nat`.  The `Map` is the association list
`entries`; `ttl`, `maxSize`, `pruneInterval`, `lastPruneTime` mirror the
constructor fields.  The periodic `setInterval` pruning timer is outside
the model; `prune` itself is embedded and may be invoked at any time as
an operation. -/

structure CacheEntry where
  value : Nat
  expiresAt : Nat
  lastAccessed : Nat
deriving DecidableEq

structure CacheManager where
  ttl : Nat
  maxSize : Nat
  pruneInterval : Nat
  entries : List (Nat × CacheEntry)
  lastPruneTime : Nat
deriving DecidableEq

/-- The constructor (lines 121-132), with `Date.now()` passed in. -/
def CacheManager.mk0 (now ttl maxSize pruneInterval : Nat) : CacheManager :=
  { ttl := ttl, maxSize := maxSize, pruneInterval := pruneInterval,
    entries := [], lastPruneTime := now }

/-- The expired-entry sweep of `prune` (lines 191-195): remove every
entry with `now > expiresAt`. -/
def pruneExpired (now : Nat) (entries : List (Nat × CacheEntry)) :
    List (Nat × CacheEntry) :=
  entries.filter (fun p => decide (¬ now > p.2.expiresAt))

/-- The over-capacity sweep of `prune` (lines 198-207): when still over
`maxSize`, sort the entries by `lastAccessed` ascending (JavaScript
`Array.prototype.sort` is stable) and delete the first
`length - maxSize` of them from the map, by key. -/
def trimLRU (maxSize : Nat) (entries : List (Nat × CacheEntry)) :
    List (Nat × CacheEntry) :=
  if entries.length > maxSize then
    let sorted := entries.mergeSort
      (fun a b => decide (a.2.lastAccessed ≤ b.2.lastAccessed))
    let removeKeys := (sorted.take (entries.length - maxSize)).map Prod.fst
    entries.filter (fun p => decide (p.1 ∉ removeKeys))
  else entries

/-- `CacheManager.prune` (lines 180-208): skip if not forced and the
prune interval has not elapsed; otherwise drop expired entries, then if
still over capacity drop least-recently-accessed entries. -/
def CacheManager.prune (c : CacheManager) (now : Nat) (force : Bool) : CacheManager :=
  if ¬ force = true ∧ now - c.lastPruneTime < c.pruneInterval then c
  else { c with lastPruneTime := now,
                entries := trimLRU c.maxSize (pruneExpired now c.entries) }

/-- `CacheManager.get` (lines 135-152): a hit past its expiry is deleted
and reported as absent; a live hit refreshes `lastAccessed` in place. -/
def CacheManager.get (c : CacheManager) (now key : Nat) : Option Nat × CacheManager :=
  match mapFind? c.entries key with
  | none => (none, c)
  | some item =>
    if now > item.expiresAt then
      (none, { c with entries := mapErase c.entries key })
    else
      (some item.value,
       { c with entries :=
          mapSet c.entries key { item with lastAccessed := now } })

/-- `CacheManager.set` (lines 155-172): forced prune first when at
capacity, then insert.  In `ttl || this.ttl` a `ttl` argument of `0` is
falsy in JavaScript and falls back to the default. -/
def CacheManager.set (c : CacheManager) (now key value : Nat) (ttl? : Option Nat) :
    CacheManager :=
  let c1 := if c.entries.length ≥ c.maxSize then c.prune now true else c
  let t := match ttl? with
    | some tt => if tt = 0 then c1.ttl else tt
    | none => c1.ttl
  let e : CacheEntry := { value := value, expiresAt := now + t, lastAccessed := now }
  { c1 with entries := mapSet c1.entries key e }

/-- `CacheManager.delete` (lines 175-177). -/
def CacheManager.delete (c : CacheManager) (key : Nat) : CacheManager :=
  { c with entries := mapErase c.entries key }

/-- One client-visible cache operation. -/
inductive CacheOp where
  | setOp (now key value : Nat) (ttl : Option Nat)
  | getOp (now key : Nat)
  | deleteOp (key : Nat)
  | pruneOp (now : Nat) (force : Bool)
deriving DecidableEq

def CacheManager.applyOp (c : CacheManager) : CacheOp → CacheManager
  | .setOp now k v t => c.set now k v t
  | .getOp now k => (c.get now k).2
  | .deleteOp k => c.delete k
  | .pruneOp now f => c.prune now f

def CacheManager.runOps (c : CacheManager) (ops : List CacheOp) : CacheManager :=
  ops.foldl CacheManager.applyOp c

/-- The cache invariant maintained by every operation: distinct keys (a
`Map` property) and at most `maxSize + 1` entries. -/
def CacheInv (c : CacheManager) : Prop :=
  keysNodup c.entries ∧ c.entries.length ≤ c.maxSize + 1



/-! ### ThrottlingManager (scalable_bundle_engine.js lines 230-345)

Source identities (IP strings) are modelled as `Nat`.  `requests` maps a
source to its window of request timestamps, `blockedIPs` maps a blocked
source to its block-expiry time, `globalRequests` is the global
1-second window. -/

structure ThrottlingManager where
  maxRequestsPerSecond : Nat
  maxRequestsPerIP : Nat
  windowMs : Nat
  blockDuration : Nat
  requests : List (Nat × List Nat)
  blockedIPs : List (Nat × Nat)
  globalRequests : List Nat
deriving DecidableEq

/-- The constructor (lines 232-244). -/
def ThrottlingManager.mk0 (maxRPS maxPerIP windowMs blockDuration : Nat) :
    ThrottlingManager :=
  { maxRequestsPerSecond := maxRPS, maxRequestsPerIP := maxPerIP,
    windowMs := windowMs, blockDuration := blockDuration,
    requests := [], blockedIPs := [], globalRequests := [] }

/-- The body of `isAllowed` after the blocked-source check (lines
262-287): prune and check the global 1-second window, materialize the
source's entry, check the source's sliding window; on the source-limit
path the source is blocked until `now + blockDuration`; on the allow
path the current timestamp is pushed onto both windows. -/
def ThrottlingManager.isAllowedChecks (t : ThrottlingManager) (ip now : Nat) :
    Bool × ThrottlingManager :=
  let globalReqs := t.globalRequests.filter (fun ts => decide (now - ts < 1000))
  let t1 := { t with globalRequests := globalReqs }
  if globalReqs.length ≥ t1.maxRequestsPerSecond then (false, t1)
  else
    let t2 := if mapHas t1.requests ip then t1
      else { t1 with requests := mapSet t1.requests ip [] }
    let ipReqs := (mapGetD t2.requests ip []).filter
      (fun ts => decide (now - ts < t2.windowMs))
    if ipReqs.length ≥ t2.maxRequestsPerIP then
      (false, { t2 with blockedIPs := mapSet t2.blockedIPs ip (now + t2.blockDuration) })
    else
      (true, { t2 with globalRequests := globalReqs ++ [now],
                       requests := mapSet t2.requests ip (ipReqs ++ [now]) })

/-- `ThrottlingManager.isAllowed` (lines 247-288): a blocked source is
rejected outright (state untouched) until its block expires, at which
point the block entry is removed and the window checks run. -/
def ThrottlingManager.isAllowed (t : ThrottlingManager) (ip now : Nat) :
    Bool × ThrottlingManager :=
  match mapFind? t.blockedIPs ip with
  | some expiry =>
    if now < expiry then (false, t)
    else ThrottlingManager.isAllowedChecks
      { t with blockedIPs := mapErase t.blockedIPs ip } ip now
  | none => ThrottlingManager.isAllowedChecks t ip now

/-- `ThrottlingManager.recordRequest` (lines 291-305): unconditionally
push the current timestamp onto the global window and the source's
window. -/
def ThrottlingManager.recordRequest (t : ThrottlingManager) (ip now : Nat) :
    ThrottlingManager :=
  let t1 := { t with globalRequests := t.globalRequests ++ [now] }
  let t2 := if mapHas t1.requests ip then t1
    else { t1 with requests := mapSet t1.requests ip [] }
  { t2 with requests := mapSet t2.requests ip (mapGetD t2.requests ip [] ++ [now]) }

/-- The throttling prefix of `ScalableBundleEngine.addTransaction`
(lines 808-817, with `THROTTLING.ENABLED` set): the request is admitted
only if `isAllowed` passes, and an admitted request is then additionally
recorded via `recordRequest` for the same source, so one admission
appends two timestamps to the source window. -/
def throttleAdmit (t : ThrottlingManager) (ip now : Nat) : Bool × ThrottlingManager :=
  let a := t.isAllowed ip now
  if a.1 then (true, a.2.recordRequest ip now) else (false, a.2)

/-- `n` back-to-back admission attempts from the same source at the same
instant. -/
def throttleAdmitN : Nat → ThrottlingManager → Nat → Nat → List Bool × ThrottlingManager
  | 0, t, _, _ => ([], t)
  | Nat.succ n, t, ip, now =>
    let a := throttleAdmit t ip now
    let rest := throttleAdmitN n a.2 ip now
    (a.1 :: rest.1, rest.2)

/-- `n` back-to-back `isAllowed` checks from the same source at the same
instant (no `recordRequest`), collecting the verdicts. -/
def isAllowedN : Nat → ThrottlingManager → Nat → Nat → List Bool × ThrottlingManager
  | 0, t, _, _ => ([], t)
  | Nat.succ n, t, ip, now =>
    let a := t.isAllowed ip now
    let rest := isAllowedN n a.2 ip now
    (a.1 :: rest.1, rest.2)

/-! ### Transactions, ShardManager (scalable_bundle_engine.js lines 347-496)

A pending transfer: `id` (the random hex id, modelled as `Nat`),
`fromWallet` (the sender public key, modelled as `Nat`), `amount` and
`timestamp`.  Fields not observed by any claim (`toWallet`,
`fromKeypair`, `priority`) are omitted; priority only determines the
ordering of the optimizer queue, which the claims treat abstractly. -/

structure Transaction where
  id : Nat
  fromWallet : Nat
  amount : Nat
  timestamp : Nat
deriving DecidableEq

/-- One shard: its member transactions and its load counter (a
JavaScript number that is incremented and decremented, hence `Int`). -/
structure Shard where
  transactions : List Transaction
  load : Int
deriving DecidableEq

structure ShardManager where
  shards : List Shard
  lastRebalanceTime : Nat
  rebalanceInterval : Nat
deriving DecidableEq

/-- The constructor (lines 349-365): `shardCount` empty shards with zero
load. -/
def ShardManager.mk0 (shardCount now rebalanceInterval : Nat) : ShardManager :=
  { shards := List.replicate shardCount { transactions := [], load := 0 },
    lastRebalanceTime := now, rebalanceInterval := rebalanceInterval }

/-- `this.shards[i]`, with a dummy shard out of range (the source never
indexes out of range: `getShardIndex` reduces a sha256 hash modulo
`shardCount`). -/
def getShard (shards : List Shard) (i : Nat) : Shard :=
  shards.getD i { transactions := [], load := 0 }

/-- `ShardManager.assignToShard` (lines 368-376).  The sha256-based
`getShardIndex` (lines 379-402) is kept abstract: the claims hold for
every shard index, so it enters as the argument `shardIndex`. -/
def ShardManager.assignToShard (m : ShardManager) (shardIndex : Nat)
    (tx : Transaction) : ShardManager :=
  let shard := getShard m.shards shardIndex
  let shard2 := { shard with transactions := shard.transactions ++ [tx],
                             load := shard.load + 1 }
  { m with shards := m.shards.set shardIndex shard2 }

/-- `ShardManager.removeTransactionsFromShard` (lines 414-428): filter
out the given ids and decrement the load by the number removed. -/
def ShardManager.removeTransactionsFromShard (m : ShardManager)
    (shardIndex : Nat) (ids : List Nat) : Nat × ShardManager :=
  let shard := getShard m.shards shardIndex
  let remaining := shard.transactions.filter (fun tx => decide (tx.id ∉ ids))
  let removedCount := shard.transactions.length - remaining.length
  let shard2 := { shard with transactions := remaining,
                             load := shard.load - (removedCount : Int) }
  (removedCount, { m with shards := m.shards.set shardIndex shard2 })

/-- One iteration of the rebalance loop (lines 460-480): move
`Math.floor((over.load - under.load) / 2)` transactions (`Int.fdiv`
matches `Math.floor` of the real quotient) from the front of the
overloaded shard to the end of the underloaded one, updating both loads;
`toMove <= 0` skips the pair.  Mutations are applied in source order. -/
def moveStep (shards : List Shard) (o u : Nat) : List Shard :=
  let overShard := getShard shards o
  let toMove := Int.fdiv (overShard.load - (getShard shards u).load) 2
  if toMove ≤ 0 then shards
  else
    let moved := overShard.transactions.take toMove.toNat
    let overShard2 := { overShard with
      transactions := overShard.transactions.drop toMove.toNat,
      load := overShard.load - toMove }
    let shards1 := shards.set o overShard2
    let underShard := getShard shards1 u
    let underShard2 := { underShard with
      transactions := underShard.transactions ++ moved,
      load := underShard.load + toMove }
    shards1.set u underShard2

/-- The pairing loop of `rebalance` (lines 460-480): overloaded shards
in index order, each consuming one underloaded shard (`shift`); the loop
breaks when no underloaded shards remain. -/
def rebalanceLoop : List Nat → List Nat → List Shard → List Shard
  | [], _, shards => shards
  | _ :: _, [], shards => shards
  | o :: os, u :: us, shards => rebalanceLoop os us (moveStep shards o u)

/-- `ShardManager.rebalance` (lines 431-481): rate-limited by
`rebalanceInterval`; classifies shards as overloaded (load 20% above the
mean) or underloaded (20% below), then moves work pairwise.  The mean
and thresholds are computed exactly in `Rat` where the source uses
doubles; the invariants proved below hold for every classification, so
boundary rounding differences are immaterial. -/
def ShardManager.rebalance (m : ShardManager) (now : Nat) : ShardManager :=
  if now - m.lastRebalanceTime < m.rebalanceInterval then m
  else
    let shardCount := m.shards.length
    let totalLoad : Int := (m.shards.map Shard.load).sum
    let avgLoad : Rat := (totalLoad : Rat) / (shardCount : Rat)
    let overIdx := (List.range shardCount).filter
      (fun i => decide (((getShard m.shards i).load : Rat) > avgLoad * (6 / 5)))
    let underIdx := (List.range shardCount).filter
      (fun i => decide (((getShard m.shards i).load : Rat) < avgLoad * (4 / 5)))
    { m with lastRebalanceTime := now,
             shards := rebalanceLoop overIdx underIdx m.shards }

/-- A shard is well-formed when its load counter equals the number of
transactions it holds. -/
def Shard.wf (s : Shard) : Prop := s.load = (s.transactions.length : Int)

/-- All shards of the manager are well-formed. -/
def ShardManager.wf (m : ShardManager) : Prop := ∀ s ∈ m.shards, s.wf

/-- The multiset of all transactions across all shards. -/
def allShardTx (shards : List Shard) : Multiset Transaction :=
  (shards.map (fun s => (s.transactions : Multiset Transaction))).sum

/-! ### TransactionOptimizer selection/removal and the bundle execution
path of the engine (scalable_bundle_engine.js lines 618-685, 688-998) -/

/-- `BUNDLE_SIZE` (line 19). -/
def BUNDLE_SIZE : Nat := 10

/-- `TransactionOptimizer.getOptimizedTransactions` (lines 657-660):
`priorityQueue.slice(0, maxCount)` — the queue is kept sorted by
priority descending, so this is the top-priority prefix. -/
def getOptimizedTransactions (priorityQueue : List Transaction) (maxCount : Nat) :
    List Transaction :=
  priorityQueue.take maxCount

/-- `TransactionOptimizer.removeTransactions` (lines 668-684): drop the
given ids from the priority queue and from every per-sender group,
deleting groups that become empty. -/
def optimizerRemoveTransactions (priorityQueue : List Transaction)
    (groups : List (Nat × List Transaction)) (ids : List Nat) :
    List Transaction × List (Nat × List Transaction) :=
  (priorityQueue.filter (fun tx => decide (tx.id ∉ ids)),
   (groups.map (fun g => (g.1, g.2.filter (fun tx => decide (tx.id ∉ ids))))).filter
     (fun g => decide (¬ g.2.isEmpty)))

/-- The engine state observed by the bundle-execution claims: the
pending pool, the optimizer's priority queue and per-sender groups, the
shard manager, and the in-flight flag. -/
structure ScalableBundleEngine where
  pendingTransactions : List Transaction
  priorityQueue : List Transaction
  transactionGroups : List (Nat × List Transaction)
  shardManager : ShardManager
  bundleInProgress : Bool
deriving DecidableEq

/-- The state transition of `executeBundleTransactions` (lines 942-998)
inside its reentrancy guard: no-op when the pool is empty or a bundle is
already in flight; otherwise select the `min(pending, BUNDLE_SIZE)`
top-priority transactions, remove their ids from the optimizer (priority
queue and per-sender groups, lines 975) and from the pending pool (line
976), and return them for dispatch.  `bundleInProgress` is set at entry
and cleared in the `finally`, so it is `false` again after the call.
The random bundle id and the worker dispatch touch no pending index and
are outside the state.  Note that the body never calls
`shardManager.removeTransactionsFromShard` — the shard manager field is
left untouched. -/
def ScalableBundleEngine.executeBundleTransactions (e : ScalableBundleEngine) :
    List Transaction × ScalableBundleEngine :=
  if e.pendingTransactions.length = 0 ∨ e.bundleInProgress = true then ([], e)
  else
    let transactionsToExecute := getOptimizedTransactions e.priorityQueue
      (min e.pendingTransactions.length BUNDLE_SIZE)
    let transactionIds := transactionsToExecute.map Transaction.id
    let removed := optimizerRemoveTransactions e.priorityQueue
      e.transactionGroups transactionIds
    (transactionsToExecute,
     { e with priorityQueue := removed.1,
              transactionGroups := removed.2,
              pendingTransactions := e.pendingTransactions.filter
                (fun tx => decide (tx.id ∉ transactionIds)),
              bundleInProgress := false })

/-! ### ReentrancyGuard (reentrancy_guard.js lines 27-186)

`executeWithGuard` is asynchronous JavaScript; its observable behaviour
for one operation key is captured as a state machine driven by two
events, each an atomic segment of the source between suspension points:

* `arrive` — a call to `executeWithGuard(key, fn)` reaches the lock
  check (lines 37-51).  If `isLocked` it is appended to the key's FIFO
  queue by `_addToPendingQueue` (lines 131-146) and the caller receives a
  pending promise; otherwise `_lock` is taken (line 51) and `fn` starts.
  Calls are numbered by arrival order (`arrived` is the next number).
* `finish` — the currently running `fn` settles (resolve or reject);
  the `finally` block (lines 78-84) runs `_unlock` and then
  `_processPendingOperations` (lines 153-186), which dequeues exactly one
  pending entry (`shift`, line 164) and re-enters `executeWithGuard` for
  it.  Between the unlock and the dequeued call's re-lock the source
  executes synchronously (no `await` separates `this._unlock(...)`,
  the synchronous prefix of `_processPendingOperations` and the lock
  check inside the recursive `executeWithGuard`), so unlock-and-drain is
  a single atomic transition, and the dequeued call re-acquires the lock
  before any other task can run.

`running` is the list of calls whose `fn` has started but not settled —
kept as a list precisely so that mutual exclusion (`running` never holds
two calls) is a proved property of the lock discipline rather than a
modelling assumption.  `completed` records settled calls in completion
order. -/

structure GuardState where
  locked : Bool
  queue : List Nat
  running : List Nat
  completed : List Nat
  arrived : Nat
deriving DecidableEq

inductive GuardEvent where
  | arrive
  | finish
deriving DecidableEq

/-- A fresh guard for one key: `locks` empty (hence unlocked) and no
pending operations (constructor, lines 12-17). -/
def guardInit : GuardState :=
  { locked := false, queue := [], running := [], completed := [], arrived := 0 }

/-- One transition of the guard state machine (see the section comment
for the source mapping). -/
def guardStep (s : GuardState) (e : GuardEvent) : GuardState :=
  match e with
  | .arrive =>
    if s.locked then
      { s with queue := s.queue ++ [s.arrived], arrived := s.arrived + 1 }
    else
      { s with locked := true, running := s.running ++ [s.arrived],
               arrived := s.arrived + 1 }
  | .finish =>
    match s.running with
    | [] => s
    | r :: rs =>
      let s1 := { s with completed := s.completed ++ [r], running := rs,
                         locked := false }
      match s1.queue with
      | [] => s1
      | j :: js =>
        { s1 with queue := js, running := s1.running ++ [j], locked := true }

/-- Run the guard from the fresh state over a sequence of events. -/
def guardRun (es : List GuardEvent) : GuardState :=
  es.foldl guardStep guardInit

/-- The guard invariant: at most one call runs at a time; the lock is
held exactly while a call runs; the queue is only non-empty while
locked; and completed, running and queued calls, in that order, are
exactly the calls that arrived, in arrival order. -/
def GuardInv (s : GuardState) : Prop :=
  s.running.length ≤ 1 ∧
  (s.locked = true ↔ s.running ≠ []) ∧
  (s.locked = false → s.queue = []) ∧
  s.completed ++ s.running ++ s.queue = List.range s.arrived

/-! ## Theorems -/

theorem mapFind?_mapSet_self {β : Type} (m : List (Nat × β)) (k : Nat) (v : β) :
    mapFind? (mapSet m k v) k = some v := by
  induction m with
  | nil => simp [mapSet, mapHas, mapFind?]
  | cons p rest ih =>
    by_cases hp : p.1 = k
    · have hhas : mapHas (p :: rest) k = true := by
        simp [mapHas, List.find?_cons, hp]
      simp only [mapSet, hhas, if_true, List.map_cons, hp, if_pos rfl]
      simp [mapFind?, List.find?_cons]
    · have hhas : mapHas (p :: rest) k = mapHas rest k := by
        simp [mapHas, List.find?_cons, hp]
      by_cases hr : mapHas rest k = true
      · have h1 : mapHas (p :: rest) k = true := by rw [hhas]; exact hr
        simp only [mapSet, h1, if_true, List.map_cons, hp, if_neg hp]
        have ih2 := ih
        simp only [mapSet, hr, if_true] at ih2
        simpa [mapFind?, List.find?_cons, hp] using ih2
      · have h1 : ¬ mapHas (p :: rest) k = true := by rw [hhas]; exact hr
        simp only [mapSet, h1, if_false, List.cons_append]
        have ih2 := ih
        simp only [mapSet, hr, if_false] at ih2
        simpa [mapFind?, List.find?_cons, hp] using ih2

theorem keysNodup_mapSet {β : Type} (m : List (Nat × β)) (k : Nat) (v : β)
    (h : keysNodup m) : keysNodup (mapSet m k v) := by
  unfold mapSet
  by_cases hhas : mapHas m k = true
  · simp only [hhas, if_true]
    have : (m.map (fun p => if p.1 = k then (k, v) else p)).map Prod.fst
        = m.map Prod.fst := by
      rw [List.map_map]
      apply List.map_congr_left
      intro p _
      by_cases hp : p.1 = k
      · simp [hp]
      · simp [hp]
    unfold keysNodup
    rw [this]
    exact h
  · rw [if_neg hhas]
    have hk : k ∉ m.map Prod.fst := by
      intro hmem
      apply hhas
      obtain ⟨p, hp, hpk⟩ := List.mem_map.mp hmem
      unfold mapHas
      rw [List.find?_isSome]
      exact ⟨p, hp, by simp [hpk]⟩
    unfold keysNodup
    rw [List.map_append]
    simp only [List.map_cons, List.map_nil]
    exact List.Nodup.append h (List.nodup_singleton k)
      (by
        intro a ha hb
        simp only [List.mem_singleton] at hb
        subst hb
        exact hk ha)

theorem keysNodup_sublist {β : Type} {m m' : List (Nat × β)}
    (hsub : m'.Sublist m) (h : keysNodup m) : keysNodup m' :=
  List.Nodup.sublist (List.Sublist.map Prod.fst hsub) h

/-- A shared counting fact: filtering a list whose keys are distinct by
membership of the key in a distinct list `r` of keys that all occur keeps
exactly `r.length` elements. -/
theorem length_filter_key_mem {α κ : Type} [DecidableEq κ] (key : α → κ)
    (l : List α) (r : List κ)
    (hl : (l.map key).Nodup) (hr : r.Nodup) (hsub : ∀ k ∈ r, k ∈ l.map key) :
    (l.filter (fun x => decide (key x ∈ r))).length = r.length := by
  have h1 : (l.filter (fun x => decide (key x ∈ r))).length
      = ((l.map key).filter (fun k => decide (k ∈ r))).length := by
    rw [← List.countP_eq_length_filter, ← List.countP_eq_length_filter,
      List.countP_map]
    rfl
  rw [h1]
  have hnd : ((l.map key).filter (fun k => decide (k ∈ r))).Nodup := hl.filter _
  have hfin : ((l.map key).filter (fun k => decide (k ∈ r))).toFinset
      = r.toFinset := by
    ext a
    simp only [List.mem_toFinset, List.mem_filter, decide_eq_true_eq]
    constructor
    · rintro ⟨_, ha⟩; exact ha
    · intro ha; exact ⟨hsub a ha, ha⟩
  calc ((l.map key).filter (fun k => decide (k ∈ r))).length
      = ((l.map key).filter (fun k => decide (k ∈ r))).toFinset.card :=
        (List.toFinset_card_of_nodup hnd).symm
    _ = r.toFinset.card := by rw [hfin]
    _ = r.length := List.toFinset_card_of_nodup hr

/-- Removing, from a list with distinct keys, all elements whose key lies
in a distinct list `r` of keys that all occur removes exactly `r.length`
elements. -/
theorem length_filter_key_notMem {α κ : Type} [DecidableEq κ] (key : α → κ)
    (l : List α) (r : List κ)
    (hl : (l.map key).Nodup) (hr : r.Nodup) (hsub : ∀ k ∈ r, k ∈ l.map key) :
    (l.filter (fun x => decide (key x ∉ r))).length = l.length - r.length := by
  have hmem := length_filter_key_mem key l r hl hr hsub
  have hsplit := List.length_eq_countP_add_countP (fun x => decide (key x ∈ r)) l
  rw [List.countP_eq_length_filter, List.countP_eq_length_filter] at hsplit
  have hcongr : l.filter (fun a => decide (¬ (decide (key a ∈ r)) = true))
      = l.filter (fun x => decide (key x ∉ r)) := by
    apply List.filter_congr
    intro x _
    simp
  rw [hcongr] at hsplit
  omega

theorem mapSet_length_le {β : Type} (m : List (Nat × β)) (k : Nat) (v : β) :
    (mapSet m k v).length ≤ m.length + 1 := by
  unfold mapSet
  by_cases h : mapHas m k = true
  · rw [if_pos h, List.length_map]
    omega
  · rw [if_neg h, List.length_append]
    simp

theorem mapSet_length_of_has {β : Type} (m : List (Nat × β)) (k : Nat) (v : β)
    (h : mapHas m k = true) : (mapSet m k v).length = m.length := by
  unfold mapSet
  rw [if_pos h, List.length_map]

theorem mapErase_sublist {β : Type} (m : List (Nat × β)) (k : Nat) :
    (mapErase m k).Sublist m :=
  List.eraseP_sublist m

theorem trimLRU_sublist (maxSize : Nat) (entries : List (Nat × CacheEntry)) :
    (trimLRU maxSize entries).Sublist entries := by
  unfold trimLRU
  by_cases h : entries.length > maxSize
  · rw [if_pos h]
    exact List.filter_sublist _
  · rw [if_neg h]

theorem trimLRU_length (maxSize : Nat) (entries : List (Nat × CacheEntry))
    (h : keysNodup entries) : (trimLRU maxSize entries).length ≤ maxSize := by
  unfold trimLRU
  by_cases hover : entries.length > maxSize
  · rw [if_pos hover]
    have hperm : (entries.mergeSort
        (fun a b => decide (a.2.lastAccessed ≤ b.2.lastAccessed))).Perm entries :=
      List.mergeSort_perm entries _
    set sorted := entries.mergeSort
      (fun a b => decide (a.2.lastAccessed ≤ b.2.lastAccessed)) with hs
    set removeKeys := (sorted.take (entries.length - maxSize)).map Prod.fst with hrk
    have hkeysperm : (sorted.map Prod.fst).Perm (entries.map Prod.fst) :=
      hperm.map Prod.fst
    have hndsorted : (sorted.map Prod.fst).Nodup := hkeysperm.nodup_iff.mpr h
    have hndr : removeKeys.Nodup := by
      rw [hrk]
      exact List.Nodup.sublist
        (List.Sublist.map Prod.fst (List.take_sublist _ _)) hndsorted
    have hsubr : ∀ x ∈ removeKeys, x ∈ entries.map Prod.fst := by
      intro x hx
      rw [hrk] at hx
      obtain ⟨p, hp, hpx⟩ := List.mem_map.mp hx
      have hpm : p ∈ sorted := List.mem_of_mem_take hp
      exact hpx ▸ List.mem_map_of_mem Prod.fst (hperm.mem_iff.mp hpm)
    have hlen := length_filter_key_notMem Prod.fst entries removeKeys h hndr hsubr
    have hrlen : removeKeys.length = entries.length - maxSize := by
      rw [hrk, List.length_map, List.length_take, hperm.length_eq]
      omega
    rw [hlen, hrlen]
    omega
  · rw [if_neg hover]
    omega

theorem trimLRU_keysNodup (maxSize : Nat) (entries : List (Nat × CacheEntry))
    (h : keysNodup entries) : keysNodup (trimLRU maxSize entries) :=
  keysNodup_sublist (trimLRU_sublist maxSize entries) h

theorem cacheManager_prune_inv (c : CacheManager) (now : Nat) (force : Bool)
    (h : CacheInv c) : CacheInv (c.prune now force) ∧
      (c.prune now force).maxSize = c.maxSize := by
  unfold CacheManager.prune
  by_cases hskip : ¬ force = true ∧ now - c.lastPruneTime < c.pruneInterval
  · rw [if_pos hskip]
    exact ⟨h, rfl⟩
  · rw [if_neg hskip]
    have hnd1 : keysNodup (pruneExpired now c.entries) :=
      keysNodup_sublist (List.filter_sublist _) h.1
    have hlen := trimLRU_length c.maxSize (pruneExpired now c.entries) hnd1
    exact ⟨⟨trimLRU_keysNodup _ _ hnd1, Nat.le_succ_of_le hlen⟩, rfl⟩

theorem cacheManager_prune_force_length (c : CacheManager) (now : Nat)
    (h : keysNodup c.entries) :
    (c.prune now true).entries.length ≤ c.maxSize := by
  unfold CacheManager.prune
  rw [if_neg (by simp)]
  exact trimLRU_length c.maxSize (pruneExpired now c.entries)
    (keysNodup_sublist (List.filter_sublist _) h)

theorem cacheManager_set_inv (c : CacheManager) (now key value : Nat)
    (ttl? : Option Nat) (h : CacheInv c) :
    CacheInv (c.set now key value ttl?) ∧
      (c.set now key value ttl?).maxSize = c.maxSize := by
  unfold CacheManager.set
  by_cases hcap : c.entries.length ≥ c.maxSize
  · rw [if_pos hcap]
    have hp := cacheManager_prune_inv c now true h
    have hlen := cacheManager_prune_force_length c now h.1
    dsimp only [CacheInv]
    refine ⟨⟨keysNodup_mapSet _ key _ hp.1.1, ?_⟩, hp.2⟩
    refine Nat.le_trans (mapSet_length_le _ _ _) ?_
    rw [hp.2]
    omega
  · rw [if_neg hcap]
    have hlt : c.entries.length < c.maxSize := Nat.lt_of_not_le hcap
    dsimp only [CacheInv]
    refine ⟨⟨keysNodup_mapSet _ key _ h.1, ?_⟩, rfl⟩
    refine Nat.le_trans (mapSet_length_le _ _ _) ?_
    omega

theorem cacheManager_get_inv (c : CacheManager) (now key : Nat)
    (h : CacheInv c) : CacheInv (c.get now key).2 ∧
      (c.get now key).2.maxSize = c.maxSize := by
  unfold CacheManager.get
  cases hfind : mapFind? c.entries key with
  | none => exact ⟨h, rfl⟩
  | some item =>
    dsimp only
    by_cases hexp : now > item.expiresAt
    · rw [if_pos hexp]
      dsimp only [CacheInv]
      refine ⟨⟨keysNodup_sublist (mapErase_sublist _ _) h.1, ?_⟩, rfl⟩
      have h1 := (mapErase_sublist c.entries key).length_le
      have h2 := h.2
      omega
    · rw [if_neg hexp]
      have hhas : mapHas c.entries key = true := by
        unfold mapHas
        unfold mapFind? at hfind
        cases hf : c.entries.find? (fun p => decide (p.1 = key)) with
        | none => rw [hf] at hfind; simp at hfind
        | some p => simp [hf]
      dsimp only [CacheInv]
      refine ⟨⟨keysNodup_mapSet _ key _ h.1, ?_⟩, rfl⟩
      rw [mapSet_length_of_has _ _ _ hhas]
      exact h.2

theorem cacheManager_applyOp_inv (c : CacheManager) (op : CacheOp)
    (h : CacheInv c) : CacheInv (c.applyOp op) ∧
      (c.applyOp op).maxSize = c.maxSize := by
  cases op with
  | setOp now k v t => exact cacheManager_set_inv c now k v t h
  | getOp now k => exact cacheManager_get_inv c now k h
  | deleteOp k =>
    refine ⟨⟨keysNodup_sublist (mapErase_sublist _ _) h.1, ?_⟩, rfl⟩
    have h1 := (mapErase_sublist c.entries k).length_le
    have h2 := h.2
    show (mapErase c.entries k).length ≤ c.maxSize + 1
    omega
  | pruneOp now f => exact cacheManager_prune_inv c now f h

theorem cacheManager_runOps_inv (ops : List CacheOp) (c : CacheManager)
    (h : CacheInv c) : CacheInv (c.runOps ops) ∧
      (c.runOps ops).maxSize = c.maxSize := by
  induction ops generalizing c with
  | nil => exact ⟨h, rfl⟩
  | cons op rest ih =>
    have h1 := cacheManager_applyOp_inv c op h
    have h2 := ih (c.applyOp op) h1.1
    exact ⟨h2.1, h2.2.trans h1.2⟩

/-- Claim C5: `SafeMath.add` is claimed to saturate at
`Number.MAX_SAFE_INTEGER`, with `add(MAX_SAFE, 1) == MAX_SAFE`.  The code
(and its own test at tests/security_scalability_tests.js line 368, which
asserts `SafeMath.add(Number.MAX_SAFE_INTEGER, 1) === Number.MAX_SAFE_INTEGER`)
intends this, but the guard `result < a || result < b` can never hold for
non-negative inputs, because double addition does not wrap: the sum of two
non-negative numbers is never below either operand.  At the failing input
`a = MAX_SAFE, b = 1` (whose sum 2^53 is exactly representable, so the
`Rat` model is exact), the code returns `MAX_SAFE + 1`, exceeding
`MAX_SAFE`; moreover the guard is dead for all non-negative inputs, so
`add` never saturates there. -/
theorem safeMath_add_overflow_guard_dead :
    SafeMath.add SafeMath.maxSafeInteger 1 = SafeMath.maxSafeInteger + 1 ∧
    SafeMath.maxSafeInteger + 1 ≠ SafeMath.maxSafeInteger ∧
    ∀ a b : Rat, 0 ≤ a → 0 ≤ b → SafeMath.add a b = a + b := by
  refine ⟨?_, ?_, ?_⟩
  · show (if (9007199254740991 : Rat) + 1 < 9007199254740991 ∨
        (9007199254740991 : Rat) + 1 < 1 then (9007199254740991 : Rat)
      else 9007199254740991 + 1) = 9007199254740991 + 1
    norm_num
  · show (9007199254740991 : Rat) + 1 ≠ 9007199254740991
    norm_num
  · intro a b ha hb
    unfold SafeMath.add
    have h1 : ¬ (a + b < a) := by linarith
    have h2 : ¬ (a + b < b) := by linarith
    simp [h1, h2]

/-- Claim C8: `SafeMath.subtract` saturates at zero (it returns `0`
whenever `b > a` and never returns a negative result), and
`SafeMath.divide` maps division by zero to `0`; in particular
`subtract 3 5 = 0` and `divide 5 0 = 0`. -/
theorem safeMath_subtract_divide_saturate (a b : Rat) :
    0 ≤ SafeMath.subtract a b ∧
    (b > a → SafeMath.subtract a b = 0) ∧
    SafeMath.divide a 0 = 0 ∧
    SafeMath.subtract 3 5 = 0 ∧
    SafeMath.divide 5 0 = 0 := by
  refine ⟨?_, ?_, ?_, ?_, ?_⟩
  · unfold SafeMath.subtract
    by_cases h : b > a
    · simp [h]
    · simp [h]
      linarith [not_lt.mp h]
  · intro h
    unfold SafeMath.subtract
    simp [h]
  · unfold SafeMath.divide
    simp
  · show (if (5 : Rat) > 3 then 0 else (3 : Rat) - 5) = 0
    norm_num
  · show (if (0 : Rat) = 0 then 0 else (5 : Rat) / 0) = 0
    norm_num

/-- Witness for C8 at the concrete inputs named by the specification. -/
theorem safeMath_subtract_divide_saturate_witness :
    SafeMath.subtract 3 5 = 0 ∧ SafeMath.divide 5 0 = 0 :=
  ⟨(safeMath_subtract_divide_saturate 3 5).2.1 (by norm_num),
   (safeMath_subtract_divide_saturate 5 0).2.2.1⟩


/-- Claim C6 (counterexample): the cache is claimed never to hold more
than `MAX_SIZE` entries after any sequence of operations.  With
`MAX_SIZE = 1`, two `set` calls with fresh keys leave 2 entries: the
forced prune inside `set` only trims down to `maxSize` *before* the
insertion, so the insertion itself can push the size to `MAX_SIZE + 1`
(`prune` removes entries only while `size > maxSize`, and the subsequent
`cache.set` adds one more). -/
theorem cache_size_exceeds_maxSize :
    ((CacheManager.mk0 0 100 1 60000).runOps
      [CacheOp.setOp 0 1 10 none, CacheOp.setOp 0 2 20 none]).entries.length = 2 ∧
    (CacheManager.mk0 0 100 1 60000).maxSize = 1 ∧
    ¬ ((CacheManager.mk0 0 100 1 60000).runOps
      [CacheOp.setOp 0 1 10 none, CacheOp.setOp 0 2 20 none]).entries.length
        ≤ (CacheManager.mk0 0 100 1 60000).maxSize := by
  decide

/-- Claim C6 (amended): `set` evicts via `prune(force=true)` before
inserting when the cache is at `MAX_SIZE`, which brings the size to at
most `MAX_SIZE` before the insert; hence after every sequence of
`set`/`get`/`delete`/`prune` operations the cache holds at most
`MAX_SIZE + 1` entries (the bound `MAX_SIZE` itself fails, see the
counterexample). -/
theorem cache_size_bound (now ttl maxSize pruneInterval pnow : Nat)
    (ops : List CacheOp) (c : CacheManager) (h : keysNodup c.entries) :
    ((CacheManager.mk0 now ttl maxSize pruneInterval).runOps ops).entries.length
        ≤ maxSize + 1 ∧
    (c.prune pnow true).entries.length ≤ c.maxSize := by
  constructor
  · have h0 : CacheInv (CacheManager.mk0 now ttl maxSize pruneInterval) :=
      ⟨by simp [CacheManager.mk0, keysNodup], by simp [CacheManager.mk0]⟩
    have hrun := cacheManager_runOps_inv ops _ h0
    have h1 := hrun.1.2
    rw [hrun.2] at h1
    exact h1
  · exact cacheManager_prune_force_length c pnow h

/-- Witness for the amended C6 bound at concrete inputs. -/
theorem cache_size_bound_witness :
    ((CacheManager.mk0 0 100 1 60000).runOps
        [CacheOp.setOp 0 1 10 none, CacheOp.setOp 0 2 20 none]).entries.length
      ≤ 2 ∧
    ((CacheManager.mk0 0 100 3 50).prune 7 true).entries.length ≤ 3 :=
  ⟨(cache_size_bound 0 100 1 60000 7
      [CacheOp.setOp 0 1 10 none, CacheOp.setOp 0 2 20 none]
      (CacheManager.mk0 0 100 3 50)
      (by simp [CacheManager.mk0, keysNodup])).1,
   (cache_size_bound 0 100 1 60000 7
      [CacheOp.setOp 0 1 10 none, CacheOp.setOp 0 2 20 none]
      (CacheManager.mk0 0 100 3 50)
      (by simp [CacheManager.mk0, keysNodup])).2⟩

/-- Claim C7: `CacheManager.get` never returns a value past its expiry:
when `now > expiresAt` the entry is deleted and the result is absent;
a `get` within the entry's TTL returns the stored value.  In particular
`set(k, v, ttl)` followed by `get(k)` at any time not past `now + ttl`
yields `v`, and a `get(k)` past `now + ttl` yields absent (instantiated
in the witness with `ttl = 50`, an immediate `get` and a `get` at 60). -/
theorem cacheManager_get_respects_ttl (c : CacheManager)
    (now now2 key value ttl : Nat) (item : CacheEntry) :
    (mapFind? c.entries key = some item → now > item.expiresAt →
      c.get now key = (none, { c with entries := mapErase c.entries key })) ∧
    (mapFind? c.entries key = some item → ¬ now > item.expiresAt →
      (c.get now key).1 = some item.value) ∧
    (ttl ≠ 0 → ¬ now2 > now + ttl →
      ((c.set now key value (some ttl)).get now2 key).1 = some value) ∧
    (ttl ≠ 0 → now2 > now + ttl →
      ((c.set now key value (some ttl)).get now2 key).1 = none) := by
  refine ⟨?_, ?_, ?_, ?_⟩
  · intro hfind hexp
    unfold CacheManager.get
    rw [hfind]
    dsimp only
    rw [if_pos hexp]
  · intro hfind hexp
    unfold CacheManager.get
    rw [hfind]
    dsimp only
    rw [if_neg hexp]
  · intro hne hle
    unfold CacheManager.set CacheManager.get
    dsimp only
    rw [if_neg hne, mapFind?_mapSet_self]
    dsimp only
    rw [if_neg hle]
  · intro hne hgt
    unfold CacheManager.set CacheManager.get
    dsimp only
    rw [if_neg hne, mapFind?_mapSet_self]
    dsimp only
    rw [if_pos hgt]

/-- Witness for C7: on a concrete cache holding key 5 with value 42 and
`expiresAt = 10`, `get` at time 11 is absent and `get` at time 9 returns
42; and `set` with `ttl = 50` at time 0 followed by an immediate `get`
returns the value while a `get` at time 60 is absent. -/
theorem cacheManager_get_respects_ttl_witness :
    ((⟨100, 3, 50, [(5, ⟨42, 10, 3⟩)], 0⟩ : CacheManager).get 11 5).1 = none ∧
    ((⟨100, 3, 50, [(5, ⟨42, 10, 3⟩)], 0⟩ : CacheManager).get 9 5).1 = some 42 ∧
    (((CacheManager.mk0 0 100 3 50).set 0 5 42 (some 50)).get 0 5).1 = some 42 ∧
    (((CacheManager.mk0 0 100 3 50).set 0 5 42 (some 50)).get 60 5).1 = none :=
  ⟨congrArg Prod.fst
      ((cacheManager_get_respects_ttl ⟨100, 3, 50, [(5, ⟨42, 10, 3⟩)], 0⟩
        11 0 5 0 1 ⟨42, 10, 3⟩).1 (by decide) (by decide)),
   (cacheManager_get_respects_ttl ⟨100, 3, 50, [(5, ⟨42, 10, 3⟩)], 0⟩
        9 0 5 0 1 ⟨42, 10, 3⟩).2.1 (by decide) (by decide),
   (cacheManager_get_respects_ttl (CacheManager.mk0 0 100 3 50)
        0 0 5 42 50 ⟨0, 0, 0⟩).2.2.1 (by decide) (by decide),
   (cacheManager_get_respects_ttl (CacheManager.mk0 0 100 3 50)
        0 60 5 42 50 ⟨0, 0, 0⟩).2.2.2 (by decide) (by decide)⟩

theorem mapGetD_mapSet_self {β : Type} (m : List (Nat × β)) (k : Nat) (v d : β) :
    mapGetD (mapSet m k v) k d = v := by
  unfold mapGetD
  rw [mapFind?_mapSet_self]
  rfl

theorem mapFind?_of_has_false {β : Type} (m : List (Nat × β)) (k : Nat)
    (h : mapHas m k = false) : mapFind? m k = none := by
  unfold mapHas at h
  unfold mapFind?
  cases hf : m.find? (fun p => decide (p.1 = k)) with
  | none => rfl
  | some p => rw [hf] at h; simp at h

theorem throttle_step1 (ip tm : Nat) :
    (ThrottlingManager.mk0 100 3 60000 300000).isAllowed ip tm
      = (true, { maxRequestsPerSecond := 100, maxRequestsPerIP := 3,
                 windowMs := 60000, blockDuration := 300000,
                 requests := [(ip, [tm])], blockedIPs := [],
                 globalRequests := [tm] }) := by
  simp [ThrottlingManager.isAllowed, ThrottlingManager.isAllowedChecks,
        ThrottlingManager.mk0, mapFind?, mapHas, mapSet, mapGetD]

theorem throttle_step2 (ip tm : Nat) :
    ({ maxRequestsPerSecond := 100, maxRequestsPerIP := 3,
       windowMs := 60000, blockDuration := 300000,
       requests := [(ip, [tm])], blockedIPs := [],
       globalRequests := [tm] } : ThrottlingManager).isAllowed ip tm
      = (true, { maxRequestsPerSecond := 100, maxRequestsPerIP := 3,
                 windowMs := 60000, blockDuration := 300000,
                 requests := [(ip, [tm, tm])], blockedIPs := [],
                 globalRequests := [tm, tm] }) := by
  simp [ThrottlingManager.isAllowed, ThrottlingManager.isAllowedChecks,
        mapFind?, mapHas, mapSet, mapGetD, Nat.sub_self]

theorem throttle_step3 (ip tm : Nat) :
    ({ maxRequestsPerSecond := 100, maxRequestsPerIP := 3,
       windowMs := 60000, blockDuration := 300000,
       requests := [(ip, [tm, tm])], blockedIPs := [],
       globalRequests := [tm, tm] } : ThrottlingManager).isAllowed ip tm
      = (true, { maxRequestsPerSecond := 100, maxRequestsPerIP := 3,
                 windowMs := 60000, blockDuration := 300000,
                 requests := [(ip, [tm, tm, tm])], blockedIPs := [],
                 globalRequests := [tm, tm, tm] }) := by
  simp [ThrottlingManager.isAllowed, ThrottlingManager.isAllowedChecks,
        mapFind?, mapHas, mapSet, mapGetD, Nat.sub_self]

theorem throttle_step4 (ip tm : Nat) :
    ({ maxRequestsPerSecond := 100, maxRequestsPerIP := 3,
       windowMs := 60000, blockDuration := 300000,
       requests := [(ip, [tm, tm, tm])], blockedIPs := [],
       globalRequests := [tm, tm, tm] } : ThrottlingManager).isAllowed ip tm
      = (false, { maxRequestsPerSecond := 100, maxRequestsPerIP := 3,
                  windowMs := 60000, blockDuration := 300000,
                  requests := [(ip, [tm, tm, tm])],
                  blockedIPs := [(ip, tm + 300000)],
                  globalRequests := [tm, tm, tm] }) := by
  simp [ThrottlingManager.isAllowed, ThrottlingManager.isAllowedChecks,
        mapFind?, mapHas, mapSet, mapGetD, Nat.sub_self]

theorem throttle_blocked_rejects (ip tm tb : Nat) (hb : tb < tm + 300000) :
    (ThrottlingManager.isAllowed
      { maxRequestsPerSecond := 100, maxRequestsPerIP := 3,
        windowMs := 60000, blockDuration := 300000,
        requests := [(ip, [tm, tm, tm])],
        blockedIPs := [(ip, tm + 300000)],
        globalRequests := [tm, tm, tm] }
      ip tb)
      = (false, { maxRequestsPerSecond := 100, maxRequestsPerIP := 3,
                  windowMs := 60000, blockDuration := 300000,
                  requests := [(ip, [tm, tm, tm])],
                  blockedIPs := [(ip, tm + 300000)],
                  globalRequests := [tm, tm, tm] }) := by
  simp [ThrottlingManager.isAllowed, mapFind?, hb]

theorem throttle_unblock_allows (ip tm : Nat) :
    (ThrottlingManager.isAllowed
      { maxRequestsPerSecond := 100, maxRequestsPerIP := 3,
        windowMs := 60000, blockDuration := 300000,
        requests := [(ip, [tm, tm, tm])],
        blockedIPs := [(ip, tm + 300000)],
        globalRequests := [tm, tm, tm] }
      ip (tm + 300000)).1 = true := by
  simp [ThrottlingManager.isAllowed, ThrottlingManager.isAllowedChecks,
        mapFind?, mapHas, mapSet, mapGetD, mapErase, Nat.add_sub_cancel_left,
        List.eraseP_cons]

/-- Claim C4: with `MAX_REQUESTS_PER_IP = 3` (remaining configuration at
its defaults), four rapid `isAllowed` calls from the same source at the
same instant yield allowed, allowed, allowed, denied; the fourth call
blocks the source until `now + BLOCK_DURATION`; while blocked, an
`isAllowed` call returns `false` and leaves the whole state — in
particular the source's timestamp window — unchanged; and a call at
block expiry is allowed again. -/
theorem throttling_rate_limit_boundary (ip tm tb : Nat) (hb : tb < tm + 300000) :
    (isAllowedN 4 (ThrottlingManager.mk0 100 3 60000 300000) ip tm).1
        = [true, true, true, false] ∧
    mapFind? (isAllowedN 4 (ThrottlingManager.mk0 100 3 60000 300000) ip tm).2.blockedIPs ip
        = some (tm + 300000) ∧
    (isAllowedN 4 (ThrottlingManager.mk0 100 3 60000 300000) ip tm).2.isAllowed ip tb
        = (false, (isAllowedN 4 (ThrottlingManager.mk0 100 3 60000 300000) ip tm).2) ∧
    ((isAllowedN 4 (ThrottlingManager.mk0 100 3 60000 300000) ip tm).2.isAllowed
        ip (tm + 300000)).1 = true := by
  have hN : isAllowedN 4 (ThrottlingManager.mk0 100 3 60000 300000) ip tm
      = ([true, true, true, false],
         { maxRequestsPerSecond := 100, maxRequestsPerIP := 3,
           windowMs := 60000, blockDuration := 300000,
           requests := [(ip, [tm, tm, tm])],
           blockedIPs := [(ip, tm + 300000)],
           globalRequests := [tm, tm, tm] }) := by
    simp only [isAllowedN, throttle_step1, throttle_step2, throttle_step3,
      throttle_step4]
  rw [hN]
  refine ⟨rfl, ?_, ?_, ?_⟩
  · simp [mapFind?]
  · exact throttle_blocked_rejects ip tm tb hb
  · exact throttle_unblock_allows ip tm

/-- Witness for C4 at source 7, window start 0 and a blocked-state probe
at time 5. -/
theorem throttling_rate_limit_boundary_witness :
    (isAllowedN 4 (ThrottlingManager.mk0 100 3 60000 300000) 7 0).1
        = [true, true, true, false] ∧
    ((isAllowedN 4 (ThrottlingManager.mk0 100 3 60000 300000) 7 0).2.isAllowed
        7 300000).1 = true :=
  ⟨(throttling_rate_limit_boundary 7 0 5 (by decide)).1,
   (throttling_rate_limit_boundary 7 0 5 (by decide)).2.2.2⟩

theorem isAllowedChecks_true_appends (t : ThrottlingManager) (ip now : Nat)
    (h : (t.isAllowedChecks ip now).1 = true) :
    (t.isAllowedChecks ip now).2.globalRequests
        = t.globalRequests.filter (fun ts => decide (now - ts < 1000)) ++ [now] ∧
    mapGetD (t.isAllowedChecks ip now).2.requests ip []
        = (mapGetD t.requests ip []).filter
            (fun ts => decide (now - ts < t.windowMs)) ++ [now] := by
  unfold ThrottlingManager.isAllowedChecks at h ⊢
  dsimp only at h ⊢
  by_cases hg : (t.globalRequests.filter (fun ts => decide (now - ts < 1000))).length
      ≥ t.maxRequestsPerSecond
  · rw [if_pos hg] at h
    simp at h
  · rw [if_neg hg] at h ⊢
    by_cases hhas : mapHas t.requests ip = true
    · rw [if_pos hhas] at h ⊢
      dsimp only at h ⊢
      by_cases hip : ((mapGetD t.requests ip []).filter
          (fun ts => decide (now - ts < t.windowMs))).length ≥ t.maxRequestsPerIP
      · rw [if_pos hip] at h
        simp at h
      · rw [if_neg hip]
        refine ⟨rfl, ?_⟩
        exact mapGetD_mapSet_self _ _ _ _
    · rw [if_neg hhas] at h ⊢
      dsimp only at h ⊢
      have hget : mapGetD (mapSet t.requests ip []) ip ([] : List Nat) = [] :=
        mapGetD_mapSet_self _ _ _ _
      have hget0 : mapGetD t.requests ip ([] : List Nat) = [] := by
        unfold mapGetD
        rw [mapFind?_of_has_false _ _ (Bool.not_eq_true _ |>.mp hhas)]
        rfl
      rw [hget] at h ⊢
      rw [hget0]
      by_cases hip : (([] : List Nat).filter
          (fun ts => decide (now - ts < t.windowMs))).length ≥ t.maxRequestsPerIP
      · rw [if_pos hip] at h
        simp at h
      · rw [if_neg hip]
        refine ⟨rfl, ?_⟩
        exact mapGetD_mapSet_self _ _ _ _

theorem isAllowed_true_appends (t : ThrottlingManager) (ip now : Nat)
    (h : (t.isAllowed ip now).1 = true) :
    (t.isAllowed ip now).2.globalRequests
        = t.globalRequests.filter (fun ts => decide (now - ts < 1000)) ++ [now] ∧
    mapGetD (t.isAllowed ip now).2.requests ip []
        = (mapGetD t.requests ip []).filter
            (fun ts => decide (now - ts < t.windowMs)) ++ [now] := by
  unfold ThrottlingManager.isAllowed at h ⊢
  cases hb : mapFind? t.blockedIPs ip with
  | none =>
    rw [hb] at h
    dsimp only at h ⊢
    exact isAllowedChecks_true_appends t ip now h
  | some expiry =>
    rw [hb] at h
    dsimp only at h ⊢
    by_cases hlt : now < expiry
    · rw [if_pos hlt] at h
      simp at h
    · rw [if_neg hlt] at h ⊢
      exact isAllowedChecks_true_appends
        { t with blockedIPs := mapErase t.blockedIPs ip } ip now h

/-- Claim C9: `isAllowed` is a mutating check: every call returning
`true` appends the current timestamp to both the global window and the
source's window.  Because the engine's `addTransaction` calls
`isAllowed` and then `recordRequest` for the same request
(`throttleAdmit`), each admitted request consumes two slots of the
source's window, so with the default `MAX_REQUESTS_PER_IP = 20` a source
is admitted exactly 10 times (half the quota) before being denied: after
10 rapid admissions the source window holds 20 timestamps. -/
theorem throttling_admission_double_counts (t : ThrottlingManager) (ip now : Nat)
    (h : (t.isAllowed ip now).1 = true) :
    ((t.isAllowed ip now).2.globalRequests
        = t.globalRequests.filter (fun ts => decide (now - ts < 1000)) ++ [now] ∧
      mapGetD (t.isAllowed ip now).2.requests ip []
        = (mapGetD t.requests ip []).filter
            (fun ts => decide (now - ts < t.windowMs)) ++ [now]) ∧
    (throttleAdmitN 11 (ThrottlingManager.mk0 100 20 60000 300000) 7 0).1
        = [true, true, true, true, true, true, true, true, true, true, false] ∧
    (mapGetD (throttleAdmitN 10 (ThrottlingManager.mk0 100 20 60000 300000) 7 0).2.requests
        7 []).length = 20 :=
  ⟨isAllowed_true_appends t ip now h, by decide, by decide⟩

/-- Witness for C9: a first allowed call on a fresh manager appends the
timestamp to both windows. -/
theorem throttling_admission_double_counts_witness :
    ((ThrottlingManager.mk0 100 20 60000 300000).isAllowed 7 0).2.globalRequests = [0] ∧
    mapGetD ((ThrottlingManager.mk0 100 20 60000 300000).isAllowed 7 0).2.requests 7 [] = [0] :=
  ⟨(throttling_admission_double_counts
      (ThrottlingManager.mk0 100 20 60000 300000) 7 0 (by decide)).1.1,
   (throttling_admission_double_counts
      (ThrottlingManager.mk0 100 20 60000 300000) 7 0 (by decide)).1.2⟩

theorem shard_wf_default : Shard.wf { transactions := [], load := 0 } := by
  simp [Shard.wf]

theorem getShard_wf (shards : List Shard) (i : Nat)
    (h : ∀ s ∈ shards, s.wf) : (getShard shards i).wf := by
  unfold getShard
  by_cases hi : i < shards.length
  · rw [List.getD_eq_getElem _ _ hi]
    exact h _ (List.getElem_mem hi)
  · rw [List.getD_eq_default _ _ (by omega)]
    exact shard_wf_default

theorem wf_set (shards : List Shard) (i : Nat) (x : Shard)
    (h : ∀ s ∈ shards, s.wf) (hx : x.wf) : ∀ s ∈ shards.set i x, s.wf := by
  intro s hs
  rcases List.mem_or_eq_of_mem_set hs with hmem | heq
  · exact h s hmem
  · rw [heq]; exact hx

theorem shardManager_mk0_wf (n now itv : Nat) :
    (ShardManager.mk0 n now itv).wf ∧
    ∀ s ∈ (ShardManager.mk0 n now itv).shards,
      s.transactions = [] ∧ s.load = 0 := by
  constructor
  · intro s hs
    rw [List.eq_of_mem_replicate hs]
    exact shard_wf_default
  · intro s hs
    rw [List.eq_of_mem_replicate hs]
    exact ⟨rfl, rfl⟩

theorem assignToShard_wf (m : ShardManager) (i : Nat) (tx : Transaction)
    (h : m.wf) : (m.assignToShard i tx).wf := by
  unfold ShardManager.assignToShard
  intro s hs
  refine wf_set m.shards i _ h ?_ s hs
  have hw := getShard_wf m.shards i h
  unfold Shard.wf at hw ⊢
  simp only [List.length_append, List.length_cons, List.length_nil]
  omega

theorem removeTransactionsFromShard_wf (m : ShardManager) (i : Nat)
    (ids : List Nat) (h : m.wf) :
    (m.removeTransactionsFromShard i ids).2.wf := by
  unfold ShardManager.removeTransactionsFromShard
  intro s hs
  refine wf_set m.shards i _ h ?_ s hs
  have hw := getShard_wf m.shards i h
  have hfl : ((getShard m.shards i).transactions.filter
      (fun tx => decide (tx.id ∉ ids))).length
      ≤ (getShard m.shards i).transactions.length :=
    (List.filter_sublist _).length_le
  unfold Shard.wf at hw ⊢
  dsimp only
  omega

theorem moveStep_wf (shards : List Shard) (o u : Nat)
    (h : ∀ s ∈ shards, s.wf) : ∀ s ∈ moveStep shards o u, s.wf := by
  unfold moveStep
  by_cases hmv : Int.fdiv ((getShard shards o).load - (getShard shards u).load) 2 ≤ 0
  · rw [if_pos hmv]
    exact h
  · rw [if_neg hmv]
    dsimp only
    set overShard := getShard shards o with ho
    set toMove := Int.fdiv (overShard.load - (getShard shards u).load) 2 with ht
    have hwo : overShard.wf := getShard_wf shards o h
    have hwu : (getShard shards u).wf := getShard_wf shards u h
    have hu0 : (0 : Int) ≤ (getShard shards u).load := by
      rw [hwu]; positivity
    have ho0 : (0 : Int) ≤ overShard.load := by
      rw [hwo]; positivity
    have htme : toMove = (overShard.load - (getShard shards u).load) / 2 := by
      rw [ht, Int.fdiv_eq_ediv _ (by norm_num)]
    have htb : toMove ≤ overShard.load ∧ 0 < toMove := by
      rw [htme]
      rw [htme] at hmv
      constructor
      · omega
      · omega
    have hwover2 : Shard.wf
        { overShard with transactions := overShard.transactions.drop toMove.toNat,
                         load := overShard.load - toMove } := by
      unfold Shard.wf at hwo ⊢
      dsimp only
      rw [List.length_drop]
      omega
    have h1 : ∀ s ∈ shards.set o { overShard with
        transactions := overShard.transactions.drop toMove.toNat,
        load := overShard.load - toMove }, s.wf :=
      wf_set shards o _ h hwover2
    refine wf_set _ u _ h1 ?_
    have hwu1 := getShard_wf _ u h1
    unfold Shard.wf at hwu1 ⊢
    dsimp only
    rw [List.length_append, List.length_take]
    have hlen : toMove.toNat ≤ overShard.transactions.length := by
      unfold Shard.wf at hwo
      omega
    omega

theorem allShardTx_cons (s : Shard) (rest : List Shard) :
    allShardTx (s :: rest) = (s.transactions : Multiset Transaction) + allShardTx rest := by
  simp [allShardTx]

theorem allShardTx_set (shards : List Shard) (i : Nat) (x : Shard)
    (h : i < shards.length) :
    allShardTx (shards.set i x) + (getShard shards i).transactions
      = allShardTx shards + (x.transactions : Multiset Transaction) := by
  induction shards generalizing i with
  | nil => simp at h
  | cons s rest ih =>
    cases i with
    | zero =>
      simp only [List.set_cons_zero, allShardTx_cons, getShard, List.getD_cons_zero]
      ac_rfl
    | succ n =>
      have hn : n < rest.length := by
        simpa using h
      simp only [List.set_cons_succ, allShardTx_cons, getShard, List.getD_cons_succ]
      have := ih n hn
      unfold getShard at this
      calc (s.transactions : Multiset Transaction) + allShardTx (rest.set n x)
            + (rest.getD n { transactions := [], load := 0 }).transactions
          = (s.transactions : Multiset Transaction)
            + (allShardTx (rest.set n x)
              + (rest.getD n { transactions := [], load := 0 }).transactions) := by
            ac_rfl
        _ = (s.transactions : Multiset Transaction)
            + (allShardTx rest + (x.transactions : Multiset Transaction)) := by
            rw [this]
        _ = (s.transactions : Multiset Transaction) + allShardTx rest
            + (x.transactions : Multiset Transaction) := by
            ac_rfl

theorem moveStep_allShardTx (shards : List Shard) (o u : Nat)
    (hu : u < shards.length) :
    allShardTx (moveStep shards o u) = allShardTx shards := by
  unfold moveStep
  by_cases hmv : Int.fdiv ((getShard shards o).load - (getShard shards u).load) 2 ≤ 0
  · rw [if_pos hmv]
  · rw [if_neg hmv]
    dsimp only
    set over := getShard shards o with hov
    set tm := Int.fdiv (over.load - (getShard shards u).load) 2 with htm
    set over2 : Shard :=
      { over with transactions := over.transactions.drop tm.toNat,
                  load := over.load - tm } with hov2
    set shards1 := shards.set o over2 with hs1
    set under2 : Shard :=
      { getShard shards1 u with
          transactions := (getShard shards1 u).transactions
            ++ over.transactions.take tm.toNat,
          load := (getShard shards1 u).load + tm } with hun2
    set A := allShardTx shards with hA
    set A1 := allShardTx shards1 with hA1
    set G := ((getShard shards1 u).transactions : Multiset Transaction) with hG
    set T := (over.transactions.take tm.toNat : Multiset Transaction) with hT
    set D := (over.transactions.drop tm.toNat : Multiset Transaction) with hD
    set O := (over.transactions : Multiset Transaction) with hO
    have hu2tx : (under2.transactions : Multiset Transaction) = G + T := rfl
    have hTD : D + T = O := by
      rw [hT, hD, hO]
      calc (over.transactions.drop tm.toNat : Multiset Transaction)
            + (over.transactions.take tm.toNat : Multiset Transaction)
          = (over.transactions.take tm.toNat : Multiset Transaction)
            + (over.transactions.drop tm.toNat : Multiset Transaction) := add_comm _ _
        _ = ((over.transactions.take tm.toNat
              ++ over.transactions.drop tm.toNat : List Transaction)
                : Multiset Transaction) := rfl
        _ = (over.transactions : Multiset Transaction) := by
            rw [List.take_append_drop]
    by_cases hol : o < shards.length
    · have e1 : A1 + O = A + D := by
        have := allShardTx_set shards o over2 hol
        rw [← hov, ← hs1, ← hA1, ← hA] at this
        exact this
      have hlen1 : shards1.length = shards.length := by
        rw [hs1]; simp
      have e2 : allShardTx (shards1.set u under2) + G = A1 + (G + T) := by
        have := allShardTx_set shards1 u under2 (by omega)
        rw [← hA1, hu2tx] at this
        exact this
      have hcancel1 : allShardTx (shards1.set u under2) = A1 + T := by
        have h' : allShardTx (shards1.set u under2) + G = (A1 + T) + G := by
          rw [e2]; ac_rfl
        exact add_right_cancel h'
      have hfinal : allShardTx (shards1.set u under2) + O = A + O := by
        calc allShardTx (shards1.set u under2) + O
            = (A1 + T) + O := by rw [hcancel1]
          _ = (A1 + O) + T := by ac_rfl
          _ = (A + D) + T := by rw [e1]
          _ = A + (D + T) := by ac_rfl
          _ = A + O := by rw [hTD]
      exact add_right_cancel hfinal
    · have hset : shards1 = shards := by
        rw [hs1]
        exact List.set_eq_of_length_le (by omega)
      have hover : over = { transactions := [], load := 0 } := by
        rw [hov]
        unfold getShard
        exact List.getD_eq_default _ _ (by omega)
      have hTnil : T = 0 := by
        rw [hT, hover]
        simp
      have e2 : allShardTx (shards1.set u under2) + G = A1 + (G + T) := by
        have := allShardTx_set shards1 u under2 (by rw [hset]; exact hu)
        rw [← hA1, hu2tx] at this
        exact this
      have hA1A : A1 = A := by rw [hA1, hA, hset]
      have h' : allShardTx (shards1.set u under2) + G = A + G := by
        rw [e2, hTnil, hA1A, add_zero]
      exact add_right_cancel h'

theorem moveStep_length (shards : List Shard) (o u : Nat) :
    (moveStep shards o u).length = shards.length := by
  unfold moveStep
  by_cases hmv : Int.fdiv ((getShard shards o).load - (getShard shards u).load) 2 ≤ 0
  · rw [if_pos hmv]
  · rw [if_neg hmv]
    simp

theorem rebalanceLoop_wf (os : List Nat) (us : List Nat) (shards : List Shard)
    (h : ∀ s ∈ shards, s.wf) : ∀ s ∈ rebalanceLoop os us shards, s.wf := by
  induction os generalizing us shards with
  | nil => exact h
  | cons o os ih =>
    cases us with
    | nil => exact h
    | cons u us => exact ih us _ (moveStep_wf shards o u h)

theorem rebalanceLoop_length (os : List Nat) (us : List Nat) (shards : List Shard) :
    (rebalanceLoop os us shards).length = shards.length := by
  induction os generalizing us shards with
  | nil => rfl
  | cons o os ih =>
    cases us with
    | nil => rfl
    | cons u us =>
      calc (rebalanceLoop (o :: os) (u :: us) shards).length
          = (rebalanceLoop os us (moveStep shards o u)).length := rfl
        _ = (moveStep shards o u).length := ih us _
        _ = shards.length := moveStep_length shards o u

theorem rebalanceLoop_allShardTx (os : List Nat) (us : List Nat)
    (shards : List Shard) (hus : ∀ x ∈ us, x < shards.length) :
    allShardTx (rebalanceLoop os us shards) = allShardTx shards := by
  induction os generalizing us shards with
  | nil => rfl
  | cons o os ih =>
    cases us with
    | nil => rfl
    | cons u us =>
      have hu : u < shards.length := hus u (by simp)
      have hus2 : ∀ x ∈ us, x < (moveStep shards o u).length := by
        intro x hx
        rw [moveStep_length]
        exact hus x (by simp [hx])
      calc allShardTx (rebalanceLoop (o :: os) (u :: us) shards)
          = allShardTx (rebalanceLoop os us (moveStep shards o u)) := rfl
        _ = allShardTx (moveStep shards o u) := ih us _ hus2
        _ = allShardTx shards := moveStep_allShardTx shards o u hu

theorem rebalance_wf_conserves (m : ShardManager) (now : Nat) (h : m.wf) :
    (m.rebalance now).wf ∧ allShardTx (m.rebalance now).shards = allShardTx m.shards := by
  unfold ShardManager.rebalance
  by_cases hskip : now - m.lastRebalanceTime < m.rebalanceInterval
  · rw [if_pos hskip]
    exact ⟨h, rfl⟩
  · rw [if_neg hskip]
    refine ⟨rebalanceLoop_wf _ _ _ h, rebalanceLoop_allShardTx _ _ _ ?_⟩
    intro x hx
    exact List.mem_range.mp (List.mem_filter.mp hx).1

/-- Claim C10: every shard's load counter equals the number of
transactions it holds — at startup both are zero, and the equality is
preserved by every `assignToShard`, `removeTransactionsFromShard` and
`rebalance` call; `rebalance` moreover preserves the multiset of all
transactions across shards (so the total count is preserved and no
transfer is duplicated or dropped). -/
theorem shardManager_load_invariant (m : ShardManager)
    (n now0 itv i now : Nat) (tx : Transaction) (ids : List Nat)
    (h : m.wf) :
    (ShardManager.mk0 n now0 itv).wf ∧
    (∀ s ∈ (ShardManager.mk0 n now0 itv).shards,
      s.transactions = [] ∧ s.load = 0) ∧
    (m.assignToShard i tx).wf ∧
    (m.removeTransactionsFromShard i ids).2.wf ∧
    (m.rebalance now).wf ∧
    allShardTx (m.rebalance now).shards = allShardTx m.shards :=
  ⟨(shardManager_mk0_wf n now0 itv).1,
   (shardManager_mk0_wf n now0 itv).2,
   assignToShard_wf m i tx h,
   removeTransactionsFromShard_wf m i ids h,
   (rebalance_wf_conserves m now h).1,
   (rebalance_wf_conserves m now h).2⟩

/-- Witness for C10 on a concrete two-shard manager holding one
transaction, with an immediate (non-rate-limited) rebalance. -/
theorem shardManager_load_invariant_witness :
    (ShardManager.assignToShard
      { shards := [{ transactions := [{ id := 1, fromWallet := 2, amount := 3, timestamp := 4 }],
                     load := 1 },
                   { transactions := [], load := 0 }],
        lastRebalanceTime := 0, rebalanceInterval := 0 }
      1 { id := 9, fromWallet := 8, amount := 7, timestamp := 6 }).wf ∧
    allShardTx
      (ShardManager.rebalance
        { shards := [{ transactions := [{ id := 1, fromWallet := 2, amount := 3, timestamp := 4 }],
                       load := 1 },
                     { transactions := [], load := 0 }],
          lastRebalanceTime := 0, rebalanceInterval := 0 }
        100).shards
      = allShardTx
        [{ transactions := [{ id := 1, fromWallet := 2, amount := 3, timestamp := 4 }],
           load := 1 },
         { transactions := [], load := 0 }] :=
  ⟨(shardManager_load_invariant
      { shards := [{ transactions := [{ id := 1, fromWallet := 2, amount := 3, timestamp := 4 }],
                     load := 1 },
                   { transactions := [], load := 0 }],
        lastRebalanceTime := 0, rebalanceInterval := 0 }
      2 0 5 1 100 { id := 9, fromWallet := 8, amount := 7, timestamp := 6 } [1]
      (by
        intro s hs
        simp only [List.mem_cons, List.mem_singleton] at hs
        rcases hs with hs | hs | hs
        · rw [hs]; simp [Shard.wf]
        · rw [hs]; simp [Shard.wf]
        · simp at hs)).2.2.1,
   (shardManager_load_invariant
      { shards := [{ transactions := [{ id := 1, fromWallet := 2, amount := 3, timestamp := 4 }],
                     load := 1 },
                   { transactions := [], load := 0 }],
        lastRebalanceTime := 0, rebalanceInterval := 0 }
      2 0 5 1 100 { id := 9, fromWallet := 8, amount := 7, timestamp := 6 } [1]
      (by
        intro s hs
        simp only [List.mem_cons, List.mem_singleton] at hs
        rcases hs with hs | hs | hs
        · rw [hs]; simp [Shard.wf]
        · rw [hs]; simp [Shard.wf]
        · simp at hs)).2.2.2.2.2⟩

theorem executeBundle_selected_ids_nodup (e : ScalableBundleEngine)
    (hperm : e.priorityQueue.Perm e.pendingTransactions)
    (hnd : (e.pendingTransactions.map Transaction.id).Nodup) (n : Nat) :
    ((e.priorityQueue.take n).map Transaction.id).Nodup ∧
    (∀ k ∈ (e.priorityQueue.take n).map Transaction.id,
      k ∈ e.pendingTransactions.map Transaction.id) := by
  have hqnd : (e.priorityQueue.map Transaction.id).Nodup :=
    ((hperm.map Transaction.id).nodup_iff).mpr hnd
  constructor
  · exact List.Nodup.sublist
      (List.Sublist.map Transaction.id (List.take_sublist n _)) hqnd
  · intro k hk
    obtain ⟨tx, htx, hid⟩ := List.mem_map.mp hk
    have : tx ∈ e.priorityQueue := List.mem_of_mem_take htx
    exact hid ▸ List.mem_map_of_mem Transaction.id (hperm.mem_iff.mp this)

/-- Claim C3: a call to `executeBundleTransactions` on a non-empty
pending pool with no execution in flight selects exactly
`min(pendingCountBefore, BUNDLE_SIZE)` transfers, and afterwards
`pendingCountBefore = pendingCountAfter + selectedCount`, with no
transfer both still pending and a member of the executed bundle.  The
hypotheses are the engine's standing invariants: the priority queue is a
permutation of the pending pool (both receive every admitted transfer
and lose the same ids) and transfer ids are distinct (ids are fresh
random handles minted at admission). -/
theorem executeBundle_conservation (e : ScalableBundleEngine)
    (hperm : e.priorityQueue.Perm e.pendingTransactions)
    (hnd : (e.pendingTransactions.map Transaction.id).Nodup)
    (hne : e.pendingTransactions ≠ [])
    (hnp : e.bundleInProgress = false) :
    e.executeBundleTransactions.1.length
        = min e.pendingTransactions.length BUNDLE_SIZE ∧
    e.pendingTransactions.length
        = e.executeBundleTransactions.2.pendingTransactions.length
          + e.executeBundleTransactions.1.length ∧
    ∀ tx ∈ e.executeBundleTransactions.2.pendingTransactions,
      ∀ tx2 ∈ e.executeBundleTransactions.1, tx.id ≠ tx2.id := by
  have hcond : ¬ (e.pendingTransactions.length = 0 ∨ e.bundleInProgress = true) := by
    rw [hnp]
    simp [List.length_eq_zero, hne]
  unfold ScalableBundleEngine.executeBundleTransactions
  rw [if_neg hcond]
  dsimp only
  have hql : e.priorityQueue.length = e.pendingTransactions.length := hperm.length_eq
  have hsel : (getOptimizedTransactions e.priorityQueue
      (min e.pendingTransactions.length BUNDLE_SIZE)).length
      = min e.pendingTransactions.length BUNDLE_SIZE := by
    unfold getOptimizedTransactions
    rw [List.length_take, hql]
    omega
  refine ⟨hsel, ?_, ?_⟩
  · have hids := executeBundle_selected_ids_nodup e hperm hnd
      (min e.pendingTransactions.length BUNDLE_SIZE)
    have hflt := length_filter_key_notMem Transaction.id e.pendingTransactions
      ((e.priorityQueue.take (min e.pendingTransactions.length BUNDLE_SIZE)).map
        Transaction.id)
      hnd hids.1 hids.2
    simp only [getOptimizedTransactions] at hsel ⊢
    rw [hflt, List.length_map, List.length_take, hql]
    omega
  · intro tx htx tx2 htx2
    have h1 : tx ∈ e.pendingTransactions.filter
        (fun tx => decide (tx.id ∉ (getOptimizedTransactions e.priorityQueue
          (min e.pendingTransactions.length BUNDLE_SIZE)).map Transaction.id)) := htx
    have h2 := (List.mem_filter.mp h1).2
    simp only [decide_eq_true_eq] at h2
    intro heq
    exact h2 (heq ▸ List.mem_map_of_mem Transaction.id htx2)

/-- Witness for C3 on a one-transaction engine. -/
theorem executeBundle_conservation_witness :
    (ScalableBundleEngine.executeBundleTransactions
      { pendingTransactions := [{ id := 1, fromWallet := 2, amount := 3, timestamp := 4 }],
        priorityQueue := [{ id := 1, fromWallet := 2, amount := 3, timestamp := 4 }],
        transactionGroups := [(2, [{ id := 1, fromWallet := 2, amount := 3, timestamp := 4 }])],
        shardManager := { shards := [], lastRebalanceTime := 0, rebalanceInterval := 0 },
        bundleInProgress := false }).1.length = 1 ∧
    (1 : Nat) =
      (ScalableBundleEngine.executeBundleTransactions
        { pendingTransactions := [{ id := 1, fromWallet := 2, amount := 3, timestamp := 4 }],
          priorityQueue := [{ id := 1, fromWallet := 2, amount := 3, timestamp := 4 }],
          transactionGroups := [(2, [{ id := 1, fromWallet := 2, amount := 3, timestamp := 4 }])],
          shardManager := { shards := [], lastRebalanceTime := 0, rebalanceInterval := 0 },
          bundleInProgress := false }).2.pendingTransactions.length
      + (ScalableBundleEngine.executeBundleTransactions
        { pendingTransactions := [{ id := 1, fromWallet := 2, amount := 3, timestamp := 4 }],
          priorityQueue := [{ id := 1, fromWallet := 2, amount := 3, timestamp := 4 }],
          transactionGroups := [(2, [{ id := 1, fromWallet := 2, amount := 3, timestamp := 4 }])],
          shardManager := { shards := [], lastRebalanceTime := 0, rebalanceInterval := 0 },
          bundleInProgress := false }).1.length :=
  ⟨(executeBundle_conservation
      { pendingTransactions := [{ id := 1, fromWallet := 2, amount := 3, timestamp := 4 }],
        priorityQueue := [{ id := 1, fromWallet := 2, amount := 3, timestamp := 4 }],
        transactionGroups := [(2, [{ id := 1, fromWallet := 2, amount := 3, timestamp := 4 }])],
        shardManager := { shards := [], lastRebalanceTime := 0, rebalanceInterval := 0 },
        bundleInProgress := false }
      (List.Perm.refl _) (by simp) (by simp) rfl).1,
   (executeBundle_conservation
      { pendingTransactions := [{ id := 1, fromWallet := 2, amount := 3, timestamp := 4 }],
        priorityQueue := [{ id := 1, fromWallet := 2, amount := 3, timestamp := 4 }],
        transactionGroups := [(2, [{ id := 1, fromWallet := 2, amount := 3, timestamp := 4 }])],
        shardManager := { shards := [], lastRebalanceTime := 0, rebalanceInterval := 0 },
        bundleInProgress := false }
      (List.Perm.refl _) (by simp) (by simp) rfl).2.1⟩

/-- Claim C1 (counterexample): `executeBundleTransactions` is claimed to
remove every selected transfer from its shard's membership, so that no
selected transfer remains in any shard.  On an engine whose only pending
transfer (id 1) is a member of shard 0, the call selects that transfer
yet leaves it inside shard 0: the body never invokes
`ShardManager.removeTransactionsFromShard` (that method is defined at
lines 414-428 but has no caller in the engine), so the shard manager is
untouched. -/
theorem executeBundle_leaves_selected_in_shard :
    (ScalableBundleEngine.executeBundleTransactions
      { pendingTransactions := [{ id := 1, fromWallet := 2, amount := 3, timestamp := 4 }],
        priorityQueue := [{ id := 1, fromWallet := 2, amount := 3, timestamp := 4 }],
        transactionGroups := [(2, [{ id := 1, fromWallet := 2, amount := 3, timestamp := 4 }])],
        shardManager := { shards := [{ transactions := [{ id := 1, fromWallet := 2, amount := 3, timestamp := 4 }],
                                       load := 1 }],
                          lastRebalanceTime := 0, rebalanceInterval := 300000 },
        bundleInProgress := false }).1
      = [{ id := 1, fromWallet := 2, amount := 3, timestamp := 4 }] ∧
    ({ id := 1, fromWallet := 2, amount := 3, timestamp := 4 } : Transaction)
      ∈ (getShard
          (ScalableBundleEngine.executeBundleTransactions
            { pendingTransactions := [{ id := 1, fromWallet := 2, amount := 3, timestamp := 4 }],
              priorityQueue := [{ id := 1, fromWallet := 2, amount := 3, timestamp := 4 }],
              transactionGroups := [(2, [{ id := 1, fromWallet := 2, amount := 3, timestamp := 4 }])],
              shardManager := { shards := [{ transactions := [{ id := 1, fromWallet := 2, amount := 3, timestamp := 4 }],
                                             load := 1 }],
                                lastRebalanceTime := 0, rebalanceInterval := 300000 },
              bundleInProgress := false }).2.shardManager.shards 0).transactions := by
  decide

/-- Claim C1 (amended): every selected transfer is removed, within the
same `executeBundleTransactions` call, from the engine's pending pool
and from the optimizer's priority ordering and per-source groups; the
`ShardManager` is not touched by the call — selected transfers remain in
their shards (shard membership is only ever changed by `assignToShard`,
`removeTransactionsFromShard` — which the engine never calls — and
`rebalance`). -/
theorem executeBundle_removes_from_optimizer_not_shards (e : ScalableBundleEngine)
    (hperm : e.priorityQueue.Perm e.pendingTransactions)
    (hnd : (e.pendingTransactions.map Transaction.id).Nodup)
    (hne : e.pendingTransactions ≠ [])
    (hnp : e.bundleInProgress = false) :
    (∀ tx2 ∈ e.executeBundleTransactions.1,
      (∀ tx ∈ e.executeBundleTransactions.2.pendingTransactions, tx.id ≠ tx2.id) ∧
      (∀ tx ∈ e.executeBundleTransactions.2.priorityQueue, tx.id ≠ tx2.id) ∧
      (∀ g ∈ e.executeBundleTransactions.2.transactionGroups,
        ∀ tx ∈ g.2, tx.id ≠ tx2.id)) ∧
    e.executeBundleTransactions.2.shardManager = e.shardManager ∧
    e.executeBundleTransactions.1 ≠ [] := by
  have hcond : ¬ (e.pendingTransactions.length = 0 ∨ e.bundleInProgress = true) := by
    rw [hnp]
    simp [List.length_eq_zero, hne]
  unfold ScalableBundleEngine.executeBundleTransactions
  rw [if_neg hcond]
  dsimp only
  refine ⟨?_, rfl, ?_⟩
  · intro tx2 htx2
    have hid2 : tx2.id ∈ (getOptimizedTransactions e.priorityQueue
        (min e.pendingTransactions.length BUNDLE_SIZE)).map Transaction.id :=
      List.mem_map_of_mem Transaction.id htx2
    refine ⟨?_, ?_, ?_⟩
    · intro tx htx heq
      have h2 := (List.mem_filter.mp htx).2
      simp only [decide_eq_true_eq] at h2
      exact h2 (heq ▸ hid2)
    · intro tx htx heq
      have h2 := (List.mem_filter.mp htx).2
      simp only [decide_eq_true_eq] at h2
      exact h2 (heq ▸ hid2)
    · intro g hg tx htx heq
      have hg2 := (List.mem_filter.mp hg).1
      obtain ⟨g0, hg0, hgeq⟩ := List.mem_map.mp hg2
      rw [← hgeq] at htx
      have h2 := (List.mem_filter.mp htx).2
      simp only [decide_eq_true_eq] at h2
      exact h2 (heq ▸ hid2)
  · intro hnil
    have h0 : e.pendingTransactions.length ≠ 0 := by
      simpa [List.length_eq_zero] using hne
    have hlen2 : (getOptimizedTransactions e.priorityQueue
        (min e.pendingTransactions.length BUNDLE_SIZE)).length
        = min e.pendingTransactions.length BUNDLE_SIZE := by
      unfold getOptimizedTransactions
      rw [List.length_take, hperm.length_eq]
      omega
    rw [hnil] at hlen2
    simp only [List.length_nil, BUNDLE_SIZE] at hlen2
    omega

/-- Witness for the amended C1 on the concrete one-transaction engine:
the call selects a non-empty bundle and leaves the shard manager exactly
as it was. -/
theorem executeBundle_removes_from_optimizer_not_shards_witness :
    (ScalableBundleEngine.executeBundleTransactions
      { pendingTransactions := [{ id := 1, fromWallet := 2, amount := 3, timestamp := 4 }],
        priorityQueue := [{ id := 1, fromWallet := 2, amount := 3, timestamp := 4 }],
        transactionGroups := [(2, [{ id := 1, fromWallet := 2, amount := 3, timestamp := 4 }])],
        shardManager := { shards := [{ transactions := [{ id := 1, fromWallet := 2, amount := 3, timestamp := 4 }],
                                       load := 1 }],
                          lastRebalanceTime := 0, rebalanceInterval := 300000 },
        bundleInProgress := false }).2.shardManager
      = { shards := [{ transactions := [{ id := 1, fromWallet := 2, amount := 3, timestamp := 4 }],
                       load := 1 }],
          lastRebalanceTime := 0, rebalanceInterval := 300000 } ∧
    (ScalableBundleEngine.executeBundleTransactions
      { pendingTransactions := [{ id := 1, fromWallet := 2, amount := 3, timestamp := 4 }],
        priorityQueue := [{ id := 1, fromWallet := 2, amount := 3, timestamp := 4 }],
        transactionGroups := [(2, [{ id := 1, fromWallet := 2, amount := 3, timestamp := 4 }])],
        shardManager := { shards := [{ transactions := [{ id := 1, fromWallet := 2, amount := 3, timestamp := 4 }],
                                       load := 1 }],
                          lastRebalanceTime := 0, rebalanceInterval := 300000 },
        bundleInProgress := false }).1 ≠ [] :=
  ⟨(executeBundle_removes_from_optimizer_not_shards
      { pendingTransactions := [{ id := 1, fromWallet := 2, amount := 3, timestamp := 4 }],
        priorityQueue := [{ id := 1, fromWallet := 2, amount := 3, timestamp := 4 }],
        transactionGroups := [(2, [{ id := 1, fromWallet := 2, amount := 3, timestamp := 4 }])],
        shardManager := { shards := [{ transactions := [{ id := 1, fromWallet := 2, amount := 3, timestamp := 4 }],
                                       load := 1 }],
                          lastRebalanceTime := 0, rebalanceInterval := 300000 },
        bundleInProgress := false }
      (List.Perm.refl _) (by simp) (by simp) rfl).2.1,
   (executeBundle_removes_from_optimizer_not_shards
      { pendingTransactions := [{ id := 1, fromWallet := 2, amount := 3, timestamp := 4 }],
        priorityQueue := [{ id := 1, fromWallet := 2, amount := 3, timestamp := 4 }],
        transactionGroups := [(2, [{ id := 1, fromWallet := 2, amount := 3, timestamp := 4 }])],
        shardManager := { shards := [{ transactions := [{ id := 1, fromWallet := 2, amount := 3, timestamp := 4 }],
                                       load := 1 }],
                          lastRebalanceTime := 0, rebalanceInterval := 300000 },
        bundleInProgress := false }
      (List.Perm.refl _) (by simp) (by simp) rfl).2.2⟩

theorem guardStep_inv (s : GuardState) (e : GuardEvent) (h : GuardInv s) :
    GuardInv (guardStep s e) := by
  obtain ⟨hlen, hiff, hq, hcat⟩ := h
  cases e with
  | arrive =>
    unfold guardStep
    by_cases hl : s.locked = true
    · rw [if_pos hl]
      have hrun : s.running ≠ [] := hiff.mp hl
      refine ⟨hlen, ?_, ?_, ?_⟩
      · simpa using hiff
      · intro hfalse
        simp at hfalse
        rw [hfalse] at hl
        simp at hl
      · dsimp only
        rw [List.range_succ, ← hcat]
        simp [List.append_assoc]
    · rw [if_neg hl]
      have hl2 : s.locked = false := by
        simpa using hl
      have hrun : s.running = [] := by
        by_contra hne
        rw [hiff.mpr hne] at hl2
        simp at hl2
      have hque : s.queue = [] := hq hl2
      refine ⟨?_, ?_, ?_, ?_⟩
      · simp [hrun]
      · simp [hrun]
      · simp
      · dsimp only
        rw [List.range_succ, ← hcat, hrun, hque]
        simp
  | finish =>
    unfold guardStep
    cases hr : s.running with
    | nil => exact ⟨hlen, hiff, hq, hcat⟩
    | cons r rs =>
      have hrs : rs = [] := by
        rw [hr] at hlen
        simp only [List.length_cons] at hlen
        exact List.eq_nil_of_length_eq_zero (by omega)
      dsimp only
      cases hqs : s.queue with
      | nil =>
        refine ⟨?_, ?_, ?_, ?_⟩
        · simp [hrs]
        · simp [hrs]
        · intro _
          simp [hqs]
        · dsimp only
          rw [← hcat, hr, hrs, hqs]
          simp
      | cons j js =>
        refine ⟨?_, ?_, ?_, ?_⟩
        · simp [hrs]
        · simp [hrs]
        · intro hfalse
          simp at hfalse
        · dsimp only
          rw [← hcat, hr, hrs, hqs]
          simp

theorem guardRun_inv (es : List GuardEvent) : GuardInv (guardRun es) := by
  suffices h : ∀ s, GuardInv s → GuardInv (es.foldl guardStep s) by
    refine h guardInit ?_
    refine ⟨by simp [guardInit], by simp [guardInit], by simp [guardInit], ?_⟩
    simp [guardInit]
  induction es with
  | nil => intro s hs; exact hs
  | cons e rest ih =>
    intro s hs
    exact ih (guardStep s e) (guardStep_inv s e hs)

/-- Claim C2: for every operation key, at most one guarded execution
runs at a time, and for every sequence of call arrivals and completions
the guard produces exactly one execution per call, with no skips or
duplicates, in strict arrival (FIFO) order: at every reachable state at
most one call is running (mutual exclusion); the completed, running and
queued calls, in that order, are exactly the arrived calls `0..N-1` in
arrival order (so queued calls start strictly in arrival order after the
holder releases, and no call is lost or duplicated); and once all
executions have drained, the completion order is exactly the arrival
order `0..N-1` — N calls, N sequential non-overlapping executions. -/
theorem reentrancy_guard_exclusive_fifo (es : List GuardEvent) :
    (guardRun es).running.length ≤ 1 ∧
    (guardRun es).completed ++ (guardRun es).running ++ (guardRun es).queue
        = List.range (guardRun es).arrived ∧
    ((guardRun es).running = [] ∧ (guardRun es).queue = [] →
      (guardRun es).completed = List.range (guardRun es).arrived) := by
  have h := guardRun_inv es
  obtain ⟨h1, _, _, h4⟩ := h
  refine ⟨h1, h4, ?_⟩
  rintro ⟨hr, hq⟩
  rw [hr, hq] at h4
  simpa using h4

/-- Witness for C2: three contending calls followed by three
completions drain completely, completing calls 0, 1, 2 in arrival
order with never more than one running. -/
theorem reentrancy_guard_exclusive_fifo_witness :
    (guardRun [GuardEvent.arrive, GuardEvent.arrive, GuardEvent.arrive,
               GuardEvent.finish, GuardEvent.finish, GuardEvent.finish]).completed
      = List.range (guardRun [GuardEvent.arrive, GuardEvent.arrive, GuardEvent.arrive,
               GuardEvent.finish, GuardEvent.finish, GuardEvent.finish]).arrived ∧
    (guardRun [GuardEvent.arrive, GuardEvent.arrive, GuardEvent.arrive,
               GuardEvent.finish, GuardEvent.finish, GuardEvent.finish]).running.length ≤ 1 :=
  ⟨(reentrancy_guard_exclusive_fifo
      [GuardEvent.arrive, GuardEvent.arrive, GuardEvent.arrive,
       GuardEvent.finish, GuardEvent.finish, GuardEvent.finish]).2.2 (by decide),
   (reentrancy_guard_exclusive_fifo
      [GuardEvent.arrive, GuardEvent.arrive, GuardEvent.arrive,
       GuardEvent.finish, GuardEvent.finish, GuardEvent.finish]).1⟩
